import Mathlib

/-!
Verification of the port-knocking server core.

Shallow embedding of `src/port_knocking/knock_server.py`:

* `KnockTracker.register_knock` — the per-address knock-sequence state
  machine (`self.state : Dict[str, Tuple[int, float]]` is embedded as an
  association list with unique keys; `time.time()` values are embedded
  as rationals).  A Python `IndexError` (list access out of range) is
  embedded as the `none` result.
* `_ensure_default_block` / `_run_iptables` — the firewall default-deny
  posture, embedded as a transformation of an external rule list where
  `iptables -D` deletes the first matching rule (best effort, absence
  swallowed) and `iptables -A` appends.
* `main` — startup parsing of the `--sequence` argument
  (`[int(port) for port in args.sequence.split(",")]`) and the startup
  effects performed by `listen_for_knocks` (install the default block,
  then start one listener per sequence port).
-/

/-- The per-address tracker map `ip -> (next_index, start_time)`,
embedding the Python dict `self.state` as an association list. -/
abbrev StateMap := List (String × Nat × ℚ)

/-- First-occurrence lookup, embedding `self.state[ip]` / `ip in self.state`. -/
def lookupState : StateMap → String → Option (Nat × ℚ)
  | [], _ => none
  | (k, v) :: rest, ip => if k = ip then some v else lookupState rest ip

/-- Keyed update, embedding `self.state[ip] = v` (replace if present,
append otherwise). -/
def setState : StateMap → String → Nat × ℚ → StateMap
  | [], ip, v => [(ip, v)]
  | (k, w) :: rest, ip, v =>
      if k = ip then (ip, v) :: rest else (k, w) :: setState rest ip v

/-- Keyed removal of the first occurrence, embedding `del self.state[ip]`. -/
def delState : StateMap → String → StateMap
  | [], _ => []
  | (k, w) :: rest, ip => if k = ip then rest else (k, w) :: delState rest ip

/-- The Python dict has at most one entry per key; this is the
corresponding well-formedness predicate on the association list. -/
def keysNodup (st : StateMap) : Prop := (st.map Prod.fst).Nodup

instance (st : StateMap) : Decidable (keysNodup st) := by
  unfold keysNodup; infer_instance

/-- The method `KnockTracker.register_knock(ip, port)` at time `now`, for a tracker
configured with `sequence` and `window`.  Returns `none` when the Python
code would raise `IndexError` (an out-of-range `self.sequence[...]`
access), otherwise `some (completed, newState)`. -/
def register_knock (sequence : List Int) (window : ℚ) (st : StateMap)
    (ip : String) (port : Int) (now : ℚ) : Option (Bool × StateMap) :=
  match lookupState st ip with
  | none =>
      -- Start only if first knock matches
      match sequence[0]? with
      | none => none
      | some p0 =>
          if port = p0 then some (false, setState st ip (1, now))
          else some (false, st)
  | some (idx, start) =>
      if now - start > window then
        -- Window expired -> reset; re-check if this knock starts a new sequence
        let st1 := delState st ip
        match sequence[0]? with
        | none => none
        | some p0 =>
            if port = p0 then some (false, setState st1 ip (1, now))
            else some (false, st1)
      else
        -- Expecting sequence[idx]
        match sequence[idx]? with
        | none => none
        | some expected =>
            if port = expected then
              if idx + 1 = sequence.length then
                -- Completed!
                some (true, delState st ip)
              else
                some (false, setState st ip (idx + 1, start))
            else
              -- Wrong knock -> reset; if they hit the first port again, restart
              let st1 := delState st ip
              match sequence[0]? with
              | none => none
              | some p0 =>
                  if port = p0 then some (false, setState st1 ip (1, now))
                  else some (false, st1)

/-! ## Proof-side views of the tracker

`KnockAct`, `applyAct`, `knockCore` factor `register_knock` into a pure
decision on the looked-up entry plus a map action at the caller's key;
`trackerInv`, `actOk` and `Reachable` state the state-map invariant. -/

inductive KnockAct where
  | keep
  | put (v : Nat × ℚ)
  | del
  | delput (v : Nat × ℚ)

def applyAct (st : StateMap) (ip : String) : KnockAct → StateMap
  | .keep => st
  | .put v => setState st ip v
  | .del => delState st ip
  | .delput v => setState (delState st ip) ip v

def knockCore (sequence : List Int) (window : ℚ) :
    Option (Nat × ℚ) → Int → ℚ → Option (Bool × KnockAct)
  | none, port, now =>
      match sequence[0]? with
      | none => none
      | some p0 =>
          if port = p0 then some (false, .put (1, now))
          else some (false, .keep)
  | some (idx, start), port, now =>
      if now - start > window then
        match sequence[0]? with
        | none => none
        | some p0 =>
            if port = p0 then some (false, .delput (1, now))
            else some (false, .del)
      else
        match sequence[idx]? with
        | none => none
        | some expected =>
            if port = expected then
              if idx + 1 = sequence.length then
                some (true, .del)
              else
                some (false, .put (idx + 1, start))
            else
              match sequence[0]? with
              | none => none
              | some p0 =>
                  if port = p0 then some (false, .delput (1, now))
                  else some (false, .del)

/-- What a knock action leaves at the actor's own key. -/
def actView (cur : Option (Nat × ℚ)) : KnockAct → Option (Nat × ℚ)
  | .keep => cur
  | .put v => some v
  | .del => none
  | .delput v => some v

/-- Well-formedness of the tracker state: at most one entry per address,
and every stored `nextIndex` lies in `[1, len(sequence)]`. -/
def trackerInv (sequence : List Int) (st : StateMap) : Prop :=
  keysNodup st ∧ ∀ e ∈ st, 1 ≤ e.2.1 ∧ e.2.1 ≤ sequence.length

instance (sequence : List Int) (st : StateMap) :
    Decidable (trackerInv sequence st) := by
  unfold trackerInv; infer_instance

/-- The index bounds that any map action produced by `knockCore`
satisfies. -/
def actOk (sequence : List Int) : KnockAct → Prop
  | .put v => 1 ≤ v.1 ∧ v.1 ≤ sequence.length
  | .delput v => 1 ≤ v.1 ∧ v.1 ≤ sequence.length
  | _ => True

/-- The states reachable from the empty tracker by `register_knock` calls
(errors produce no new state). -/
inductive Reachable (sequence : List Int) (window : ℚ) : StateMap → Prop where
  | init : Reachable sequence window []
  | step {st st' : StateMap} {ip : String} {port : Int} {now : ℚ} {b : Bool} :
      Reachable sequence window st →
      register_knock sequence window st ip port now = some (b, st') →
      Reachable sequence window st'

/-- One knock event as delivered by a listener: source address, knocked
port, arrival time. -/
structure Knock where
  ip : String
  port : Int
  time : ℚ

/-- One `on_knock` delivery into the tracker.  A call that raises
(`register_knock = none`) mutates nothing and produces no result. -/
def knockStep (sequence : List Int) (window : ℚ) (st : StateMap)
    (e : Knock) : StateMap × Option Bool :=
  match register_knock sequence window st e.ip e.port e.time with
  | none => (st, none)
  | some (b, st') => (st', some b)

/-- Run a whole trace of knock events, recording each event's source
address and outcome. -/
def runKnocks (sequence : List Int) (window : ℚ) :
    StateMap → List Knock → StateMap × List (String × Option Bool)
  | st, [] => (st, [])
  | st, e :: rest =>
      let p := knockStep sequence window st e
      let r := runKnocks sequence window p.1 rest
      (r.1, (e.ip, p.2) :: r.2)

inductive Rule where
  | drop (dport : Int)
  | acceptFrom (src : String) (dport : Int)
deriving DecidableEq

/-- The command `iptables -D`: delete the first rule equal to `r` (no-op when absent,
matching `_run_iptables` swallowing the error). -/
def eraseRule : List Rule → Rule → List Rule
  | [], _ => []
  | x :: xs, r => if x = r then xs else x :: eraseRule xs r

/-- The function `_ensure_default_block(protected_port)`: one best-effort delete of the
matching DROP rule, then one append of a fresh DROP rule. -/
def ensure_default_block (protected_port : Int) (rules : List Rule) :
    List Rule :=
  eraseRule rules (Rule.drop protected_port) ++ [Rule.drop protected_port]

/-- Number of occurrences of a rule in the chain. -/
def countRule : List Rule → Rule → Nat
  | [], _ => 0
  | x :: xs, r => (if x = r then 1 else 0) + countRule xs r

/-- Value of a digit character. -/
def digitVal (c : Char) : Nat := c.toNat - 48

/-- Digits-and-underscores tail of a Python integer literal: after a
digit, the next character may be a digit or an underscore, and an
underscore must be followed by a digit. -/
def pyIntDigits (acc : Nat) : List Char → Option Nat
  | [] => some acc
  | ['_'] => none
  | '_' :: c :: rest =>
      if c.isDigit then pyIntDigits (acc * 10 + digitVal c) rest else none
  | c :: rest =>
      if c.isDigit then pyIntDigits (acc * 10 + digitVal c) rest else none

/-- Unsigned body of a Python integer literal: a nonempty digit string
with optional single underscores between digits. -/
def pyIntBody : List Char → Option Nat
  | [] => none
  | c :: rest => if c.isDigit then pyIntDigits (digitVal c) rest else none

/-- Python `int(s)` for base 10 (ASCII model): strip whitespace, optional
single `+`/`-` sign, then the digit body; anything else is a
`ValueError` (`none`). -/
def pyInt (cs : List Char) : Option Int :=
  let t := ((cs.dropWhile Char.isWhitespace).reverse.dropWhile
    Char.isWhitespace).reverse
  match t with
  | '+' :: rest => (pyIntBody rest).map Int.ofNat
  | '-' :: rest => (pyIntBody rest).map (fun n => -(n : Int))
  | rest => (pyIntBody rest).map Int.ofNat

/-- Python `s.split(",")`: split on every comma, never merging; the empty
string yields `[""]`. -/
def splitOnComma : List Char → List (List Char)
  | [] => [[]]
  | c :: rest =>
      if c = ',' then [] :: splitOnComma rest
      else
        match splitOnComma rest with
        | [] => [[c]]
        | g :: gs => (c :: g) :: gs

/-- The comprehension `[int(port) for port in args.sequence.split(",")]`: `none` models the
`ValueError` that `main` converts into `SystemExit`. -/
def parse_sequence (s : String) : Option (List Int) :=
  (splitOnComma s.toList).mapM pyInt

/-- The externally visible startup actions of `listen_for_knocks`:
install the default block, then start one knock listener per sequence
port. -/
inductive StartupEffect where
  | ensureBlock (port : Int)
  | listener (port : Int)
deriving DecidableEq

/-- The function `main` up to the point where the process either exits
(`SystemExit`, the `Except.error` case) or enters `listen_for_knocks`
(the `Except.ok` case, listing the startup effects in order). -/
def main_startup (seqArg : String) (protectedPort : Int) :
    Except String (List StartupEffect) :=
  match parse_sequence seqArg with
  | none => Except.error "Invalid sequence. Use comma-separated integers."
  | some sequence =>
      Except.ok (StartupEffect.ensureBlock protectedPort ::
        sequence.map StartupEffect.listener)

/-! ## Association-list lemmas -/

lemma lookup_setState_self (st : StateMap) (ip : String) (v : Nat × ℚ) :
    lookupState (setState st ip v) ip = some v := by
  induction st with
  | nil => simp [setState, lookupState]
  | cons head rest ih =>
      obtain ⟨k, w⟩ := head
      by_cases h : k = ip <;> simp [setState, lookupState, h, ih]

lemma lookup_setState_ne (st : StateMap) (ip : String) (v : Nat × ℚ)
    (ip' : String) (h : ip' ≠ ip) :
    lookupState (setState st ip v) ip' = lookupState st ip' := by
  induction st with
  | nil => simp [setState, lookupState, Ne.symm h]
  | cons head rest ih =>
      obtain ⟨k, w⟩ := head
      by_cases hk : k = ip
      · subst hk
        simp [setState, lookupState, Ne.symm h]
      · simp only [setState, if_neg hk]
        by_cases hk' : k = ip'
        · simp [lookupState, hk']
        · simp [lookupState, hk', ih]

lemma lookup_delState_ne (st : StateMap) (ip : String)
    (ip' : String) (h : ip' ≠ ip) :
    lookupState (delState st ip) ip' = lookupState st ip' := by
  induction st with
  | nil => simp [delState]
  | cons head rest ih =>
      obtain ⟨k, w⟩ := head
      by_cases hk : k = ip
      · subst hk
        simp [delState, lookupState, Ne.symm h]
      · simp only [delState, if_neg hk]
        by_cases hk' : k = ip'
        · simp [lookupState, hk']
        · simp [lookupState, hk', ih]

lemma lookup_eq_none_of_not_mem_keys (st : StateMap) (ip : String)
    (h : ip ∉ st.map Prod.fst) : lookupState st ip = none := by
  induction st with
  | nil => simp [lookupState]
  | cons head rest ih =>
      obtain ⟨k, w⟩ := head
      simp only [List.map_cons, List.mem_cons, not_or] at h
      simp [lookupState, Ne.symm h.1, ih h.2]

lemma lookup_delState_self (st : StateMap) (ip : String) (h : keysNodup st) :
    lookupState (delState st ip) ip = none := by
  induction st with
  | nil => simp [delState, lookupState]
  | cons head rest ih =>
      obtain ⟨k, w⟩ := head
      simp only [keysNodup, List.map_cons, List.nodup_cons] at h
      by_cases hk : k = ip
      · subst hk
        simpa [delState] using lookup_eq_none_of_not_mem_keys rest k h.1
      · simp [delState, lookupState, hk, ih h.2]

lemma delState_sublist (st : StateMap) (ip : String) :
    (delState st ip).Sublist st := by
  induction st with
  | nil => simp [delState]
  | cons head rest ih =>
      obtain ⟨k, w⟩ := head
      by_cases hk : k = ip
      · simp only [delState, if_pos hk]
        exact List.sublist_cons_self (k, w) rest
      · simp only [delState, if_neg hk]
        exact List.Sublist.cons₂ (k, w) ih

lemma keysNodup_delState (st : StateMap) (ip : String) (h : keysNodup st) :
    keysNodup (delState st ip) :=
  List.Nodup.sublist (List.Sublist.map Prod.fst (delState_sublist st ip)) h

lemma mem_keys_setState (st : StateMap) (ip : String) (v : Nat × ℚ) (a : String) :
    a ∈ (setState st ip v).map Prod.fst ↔ a = ip ∨ a ∈ st.map Prod.fst := by
  induction st with
  | nil => simp [setState]
  | cons head rest ih =>
      obtain ⟨k, w⟩ := head
      by_cases hk : k = ip
      · subst hk
        have hset : setState ((k, w) :: rest) k v = (k, v) :: rest := by
          simp [setState]
        rw [hset]
        simp only [List.map_cons, List.mem_cons]
        tauto
      · simp only [setState, if_neg hk, List.map_cons, List.mem_cons, ih]
        tauto

lemma keysNodup_setState (st : StateMap) (ip : String) (v : Nat × ℚ)
    (h : keysNodup st) : keysNodup (setState st ip v) := by
  induction st with
  | nil => simp [setState, keysNodup]
  | cons head rest ih =>
      obtain ⟨k, w⟩ := head
      simp only [keysNodup, List.map_cons, List.nodup_cons] at h
      by_cases hk : k = ip
      · subst hk
        have hset : setState ((k, w) :: rest) k v = (k, v) :: rest := by
          simp [setState]
        rw [hset]
        simp only [keysNodup, List.map_cons, List.nodup_cons]
        exact h
      · simp only [setState, if_neg hk, keysNodup, List.map_cons, List.nodup_cons]
        refine ⟨?_, ih h.2⟩
        intro hmem
        rcases (mem_keys_setState rest ip v k).mp hmem with h1 | h2
        · exact hk h1
        · exact h.1 h2

lemma mem_setState (st : StateMap) (ip : String) (v : Nat × ℚ)
    (e : String × Nat × ℚ) (h : e ∈ setState st ip v) :
    e = (ip, v) ∨ e ∈ st := by
  induction st with
  | nil =>
      simp only [setState, List.mem_singleton] at h
      exact Or.inl h
  | cons head rest ih =>
      obtain ⟨k, w⟩ := head
      by_cases hk : k = ip
      · subst hk
        simp only [setState, if_pos rfl] at h
        rcases List.mem_cons.mp h with h1 | h2
        · exact Or.inl h1
        · exact Or.inr (List.mem_cons_of_mem _ h2)
      · simp only [setState, if_neg hk] at h
        rcases List.mem_cons.mp h with h1 | h2
        · exact Or.inr (h1 ▸ List.mem_cons_self _ _)
        · rcases ih h2 with h3 | h4
          · exact Or.inl h3
          · exact Or.inr (List.mem_cons_of_mem _ h4)

example :
    register_knock [1234, 5678, 9012] 10 [] "a" 1234 0 =
      some (false, [("a", 1, 0)]) := by
  simp [register_knock, lookupState, setState]

example :
    register_knock [1234, 5678, 9012] 10 [("a", 1, 0)] "a" 5678 1 =
      some (false, [("a", 2, 0)]) := by
  simp [register_knock, lookupState, setState]

example :
    register_knock [1234, 5678, 9012] 10 [("a", 2, 0)] "a" 9012 1 =
      some (true, []) := by
  simp [register_knock, lookupState, delState]

example :
    register_knock [1234] 10 [("a", 1, 0)] "a" 1234 1 = none := by
  simp [register_knock, lookupState]

/-! ## Factoring `register_knock` into a pure decision plus a map action

`register_knock` reads only the entry at its own key and changes the map
only at that key.  `knockCore` computes the decision from the looked-up
entry alone, and `applyAct` replays the resulting map action; the lemma
`register_knock_eq_core` proves the factorization faithful. -/

lemma register_knock_eq_core (sequence : List Int) (window : ℚ) (st : StateMap)
    (ip : String) (port : Int) (now : ℚ) :
    register_knock sequence window st ip port now
      = (knockCore sequence window (lookupState st ip) port now).map
          (fun r => (r.1, applyAct st ip r.2)) := by
  unfold register_knock knockCore
  cases lookupState st ip with
  | none =>
      cases sequence[0]? with
      | none => rfl
      | some p0 =>
          by_cases h : port = p0 <;> simp [h, applyAct]
  | some v =>
      obtain ⟨idx, start⟩ := v
      by_cases hw : now - start > window
      · simp only [if_pos hw]
        cases sequence[0]? with
        | none => rfl
        | some p0 => by_cases h : port = p0 <;> simp [h, applyAct]
      · simp only [if_neg hw]
        cases sequence[idx]? with
        | none => rfl
        | some expected =>
            by_cases h : port = expected
            · by_cases hl : idx + 1 = sequence.length <;>
                simp [h, hl, applyAct]
            · cases sequence[0]? with
              | none => simp [h]
              | some p0 =>
                  by_cases h0 : port = p0
                  · subst h0
                    simp [h, applyAct]
                  · simp [h, h0, applyAct]

lemma lookup_applyAct_ne (st : StateMap) (ip : String) (a : KnockAct)
    (ip' : String) (h : ip' ≠ ip) :
    lookupState (applyAct st ip a) ip' = lookupState st ip' := by
  cases a with
  | keep => rfl
  | put v => exact lookup_setState_ne st ip v ip' h
  | del => exact lookup_delState_ne st ip ip' h
  | delput v =>
      rw [applyAct, lookup_setState_ne _ ip v ip' h,
        lookup_delState_ne st ip ip' h]

lemma keysNodup_applyAct (st : StateMap) (ip : String) (a : KnockAct)
    (h : keysNodup st) : keysNodup (applyAct st ip a) := by
  cases a with
  | keep => exact h
  | put v => exact keysNodup_setState st ip v h
  | del => exact keysNodup_delState st ip h
  | delput v =>
      exact keysNodup_setState _ ip v (keysNodup_delState st ip h)

lemma lookup_applyAct_self (st : StateMap) (ip : String) (a : KnockAct)
    (h : keysNodup st) :
    lookupState (applyAct st ip a) ip = actView (lookupState st ip) a := by
  cases a with
  | keep => rfl
  | put v => exact lookup_setState_self st ip v
  | del => exact lookup_delState_self st ip h
  | delput v => exact lookup_setState_self _ ip v

/-- Every knock changes the map only at its own key. -/
lemma register_knock_frame (sequence : List Int) (window : ℚ) (st : StateMap)
    (ip : String) (port : Int) (now : ℚ) (b : Bool) (st' : StateMap)
    (h : register_knock sequence window st ip port now = some (b, st'))
    (ip' : String) (hne : ip' ≠ ip) :
    lookupState st' ip' = lookupState st ip' := by
  rw [register_knock_eq_core] at h
  rcases Option.map_eq_some'.mp h with ⟨r, hr, heq⟩
  have hst : st' = applyAct st ip r.2 := (congrArg Prod.snd heq).symm
  rw [hst]
  exact lookup_applyAct_ne st ip r.2 ip' hne

lemma keysNodup_register_knock (sequence : List Int) (window : ℚ)
    (st : StateMap) (ip : String) (port : Int) (now : ℚ) (b : Bool)
    (st' : StateMap)
    (h : register_knock sequence window st ip port now = some (b, st'))
    (hn : keysNodup st) : keysNodup st' := by
  rw [register_knock_eq_core] at h
  rcases Option.map_eq_some'.mp h with ⟨r, hr, heq⟩
  have hst : st' = applyAct st ip r.2 := (congrArg Prod.snd heq).symm
  rw [hst]
  exact keysNodup_applyAct st ip r.2 hn

/-! ## Branch behaviour of `register_knock` -/

lemma register_knock_absent (sequence : List Int) (window : ℚ) (st : StateMap)
    (ip : String) (port : Int) (now : ℚ) (p0 : Int)
    (hlook : lookupState st ip = none) (h0 : sequence[0]? = some p0) :
    register_knock sequence window st ip port now =
      some (false, if port = p0 then setState st ip (1, now) else st) := by
  simp only [register_knock, hlook, h0]
  by_cases h : port = p0 <;> simp [h]

/-- C2: for an address with in-progress state whose window is still valid,
a knock on `sequence[nextIndex]` completes (destroying the state, returning
true) when `nextIndex + 1 = len(sequence)`, and otherwise increments
`nextIndex` by exactly one, keeps `windowStart` unchanged, and returns
false. -/
theorem knock_inprogress_advance (sequence : List Int) (window : ℚ)
    (st : StateMap) (ip : String) (idx : Nat) (start now : ℚ) (port : Int)
    (hlook : lookupState st ip = some (idx, start))
    (hwin : now - start ≤ window)
    (hport : sequence[idx]? = some port) :
    register_knock sequence window st ip port now =
      (if idx + 1 = sequence.length then some (true, delState st ip)
       else some (false, setState st ip (idx + 1, start))) := by
  simp only [register_knock, hlook, gt_iff_lt, not_lt.mpr hwin, if_false, hport]
  by_cases hl : idx + 1 = sequence.length <;> simp [hl]

/-- C3: for an address with no tracker state, a knock on `sequence[0]`
creates state `(nextIndex = 1, windowStart = now)` and returns false, and a
knock on any other port returns false and leaves the map unchanged (no
entry is created). -/
theorem knock_absent_start (sequence : List Int) (window : ℚ) (st : StateMap)
    (ip : String) (port : Int) (now : ℚ) (p0 : Int)
    (hlook : lookupState st ip = none) (h0 : sequence[0]? = some p0) :
    register_knock sequence window st ip port now =
      some (false, if port = p0 then setState st ip (1, now) else st) :=
  register_knock_absent sequence window st ip port now p0 hlook h0

/-- C4: for an address with in-progress state whose window is still valid,
a knock on a port different from `sequence[nextIndex]` destroys the state
and returns false; if that wrong port equals `sequence[0]` the address is
re-armed with `(nextIndex = 1, windowStart = now)`, still returning
false. -/
theorem knock_wrong_reset (sequence : List Int) (window : ℚ) (st : StateMap)
    (ip : String) (idx : Nat) (start now : ℚ) (port expected p0 : Int)
    (hlook : lookupState st ip = some (idx, start))
    (hwin : now - start ≤ window)
    (hexp : sequence[idx]? = some expected)
    (h0 : sequence[0]? = some p0)
    (hne : port ≠ expected) :
    register_knock sequence window st ip port now =
      some (false, if port = p0 then setState (delState st ip) ip (1, now)
                   else delState st ip) := by
  simp only [register_knock, hlook, gt_iff_lt, not_lt.mpr hwin, if_false,
    hexp, if_neg hne, h0]
  by_cases hp : port = p0 <;> simp [hp]

/-- C5: for an address with in-progress state whose window has expired
(`now - windowStart > window`), the state is destroyed and the Absent rule
is applied to the current knock: fresh state `(1, now)` is created iff the
port equals `sequence[0]`, and the call returns false either way (in
particular even when the knocked port is the final port of the old
sequence). -/
theorem knock_window_expired_reset (sequence : List Int) (window : ℚ)
    (st : StateMap) (ip : String) (idx : Nat) (start now : ℚ)
    (port p0 : Int)
    (hlook : lookupState st ip = some (idx, start))
    (hwin : now - start > window)
    (h0 : sequence[0]? = some p0) :
    register_knock sequence window st ip port now =
      some (false, if port = p0 then setState (delState st ip) ip (1, now)
                   else delState st ip) := by
  simp only [register_knock, hlook, gt_iff_lt, if_pos hwin, h0]
  by_cases hp : port = p0 <;> simp [hp]

/-- Only the completion branch reports `true`, and it always deletes the
caller's entry. -/
lemma knockCore_true_act (sequence : List Int) (window : ℚ)
    (cur : Option (Nat × ℚ)) (port : Int) (now : ℚ) (a : KnockAct)
    (h : knockCore sequence window cur port now = some (true, a)) :
    a = KnockAct.del := by
  cases cur with
  | none =>
      simp only [knockCore] at h
      cases hs : sequence[0]? with
      | none => rw [hs] at h; exact absurd h (by simp)
      | some p0 =>
          rw [hs] at h
          by_cases hp : port = p0 <;> simp [hp] at h
  | some v =>
      obtain ⟨idx, start⟩ := v
      simp only [knockCore] at h
      by_cases hw : now - start > window
      · rw [if_pos hw] at h
        cases hs : sequence[0]? with
        | none => rw [hs] at h; exact absurd h (by simp)
        | some p0 =>
            rw [hs] at h
            by_cases hp : port = p0 <;> simp [hp] at h
      · rw [if_neg hw] at h
        cases hs : sequence[idx]? with
        | none => rw [hs] at h; exact absurd h (by simp)
        | some expected =>
            rw [hs] at h
            by_cases hp : port = expected
            · by_cases hl : idx + 1 = sequence.length
              · simp only [hp, hl, eq_self_iff_true, if_true,
                  Option.some.injEq, Prod.mk.injEq, true_and] at h
                exact h.symm
              · simp [hp, hl] at h
            · simp only [hp, if_false, ite_false] at h
              cases hs0 : sequence[0]? with
              | none => rw [hs0] at h; exact absurd h (by simp)
              | some p0 =>
                  rw [hs0] at h
                  by_cases hp0 : port = p0 <;> simp [hp0] at h

/-- C1: a call that reports completion removes the caller's tracker entry,
so at most one call per successfully completed sequence returns
`completed = true`; an immediately repeated knock (on the final port or any
other) is handled from the Absent state and returns false. -/
theorem knock_completion_unique (sequence : List Int) (window : ℚ)
    (st : StateMap) (ip : String) (port : Int) (now : ℚ) (st' : StateMap)
    (hnodup : keysNodup st) (hne : sequence ≠ [])
    (h : register_knock sequence window st ip port now = some (true, st')) :
    lookupState st' ip = none ∧
      ∀ port' now', ∃ st'',
        register_knock sequence window st' ip port' now' =
          some (false, st'') := by
  rw [register_knock_eq_core] at h
  rcases Option.map_eq_some'.mp h with ⟨⟨b, a⟩, hcore, heq⟩
  have hb : b = true := congrArg Prod.fst heq
  subst hb
  have ha : a = KnockAct.del :=
    knockCore_true_act sequence window _ port now a hcore
  subst ha
  have hst : st' = delState st ip := (congrArg Prod.snd heq).symm
  subst hst
  have hlook : lookupState (delState st ip) ip = none :=
    lookup_delState_self st ip hnodup
  refine ⟨hlook, ?_⟩
  intro port' now'
  obtain ⟨p0, h0⟩ : ∃ p0, sequence[0]? = some p0 := by
    cases hs : sequence[0]? with
    | none =>
        rw [List.getElem?_eq_none_iff] at hs
        exact absurd (List.length_eq_zero.mp (Nat.le_zero.mp hs)) hne
    | some p0 => exact ⟨p0, rfl⟩
  exact ⟨_, register_knock_absent sequence window _ ip port' now' p0 hlook h0⟩

/-! ## The tracker invariant (C8) -/

lemma knockCore_actOk (sequence : List Int) (window : ℚ)
    (cur : Option (Nat × ℚ)) (port : Int) (now : ℚ) (b : Bool) (a : KnockAct)
    (h : knockCore sequence window cur port now = some (b, a)) :
    actOk sequence a := by
  cases cur with
  | none =>
      simp only [knockCore] at h
      cases hs : sequence[0]? with
      | none => rw [hs] at h; exact absurd h (by simp)
      | some p0 =>
          rw [hs] at h
          have hlen : 0 < sequence.length :=
            (List.getElem?_eq_some.mp hs).1
          by_cases hp : port = p0 <;>
            simp only [hp, if_true, if_false, Option.some.injEq,
              Prod.mk.injEq, ite_true, ite_false] at h <;>
            rw [← h.2]
          · exact ⟨by omega, by omega⟩
          · trivial
  | some v =>
      obtain ⟨idx, start⟩ := v
      simp only [knockCore] at h
      by_cases hw : now - start > window
      · rw [if_pos hw] at h
        cases hs : sequence[0]? with
        | none => rw [hs] at h; exact absurd h (by simp)
        | some p0 =>
            rw [hs] at h
            have hlen : 0 < sequence.length :=
              (List.getElem?_eq_some.mp hs).1
            by_cases hp : port = p0 <;>
              simp only [hp, Option.some.injEq, Prod.mk.injEq,
                ite_true, ite_false] at h <;>
              rw [← h.2]
            · exact ⟨by omega, by omega⟩
            · trivial
      · rw [if_neg hw] at h
        cases hs : sequence[idx]? with
        | none => rw [hs] at h; exact absurd h (by simp)
        | some expected =>
            rw [hs] at h
            have hlen : idx < sequence.length :=
              (List.getElem?_eq_some.mp hs).1
            by_cases hp : port = expected
            · by_cases hl : idx + 1 = sequence.length
              · simp only [hp, hl, eq_self_iff_true, if_true,
                  Option.some.injEq, Prod.mk.injEq] at h
                rw [← h.2]
                trivial
              · simp only [hp, hl, eq_self_iff_true, if_true, if_false,
                  ite_false, Option.some.injEq, Prod.mk.injEq] at h
                rw [← h.2]
                exact ⟨by omega, by omega⟩
            · simp only [hp, if_false, ite_false] at h
              cases hs0 : sequence[0]? with
              | none => rw [hs0] at h; exact absurd h (by simp)
              | some p0 =>
                  rw [hs0] at h
                  have hlen0 : 0 < sequence.length :=
                    (List.getElem?_eq_some.mp hs0).1
                  by_cases hp0 : port = p0
                  · simp only [hp0, eq_self_iff_true, if_true,
                      Option.some.injEq, Prod.mk.injEq] at h
                    rw [← h.2]
                    exact ⟨by omega, by omega⟩
                  · simp only [hp0, if_false, ite_false,
                      Option.some.injEq, Prod.mk.injEq] at h
                    rw [← h.2]
                    trivial

lemma trackerInv_register_knock (sequence : List Int) (window : ℚ)
    (st : StateMap) (ip : String) (port : Int) (now : ℚ) (b : Bool)
    (st' : StateMap)
    (h : register_knock sequence window st ip port now = some (b, st'))
    (hinv : trackerInv sequence st) : trackerInv sequence st' := by
  rw [register_knock_eq_core] at h
  rcases Option.map_eq_some'.mp h with ⟨⟨b', a⟩, hcore, heq⟩
  have hst : st' = applyAct st ip a := (congrArg Prod.snd heq).symm
  have hok := knockCore_actOk sequence window _ port now b' a hcore
  subst hst
  refine ⟨keysNodup_applyAct st ip a hinv.1, ?_⟩
  intro e he
  cases a with
  | keep => exact hinv.2 e he
  | put v =>
      rcases mem_setState st ip v e he with h1 | h2
      · rw [h1]
        exact hok
      · exact hinv.2 e h2
  | del => exact hinv.2 e ((delState_sublist st ip).subset he)
  | delput v =>
      rcases mem_setState _ ip v e he with h1 | h2
      · rw [h1]
        exact hok
      · exact hinv.2 e ((delState_sublist st ip).subset h2)

/-- C8: every tracker state reachable from the empty map has at most one
entry per address, and every stored `nextIndex` lies in
`[1, len(sequence)]`; the invariant is preserved by every
`register_knock` call. -/
theorem knock_tracker_invariant (sequence : List Int) (window : ℚ)
    (st : StateMap) (h : Reachable sequence window st) :
    trackerInv sequence st := by
  induction h with
  | init => exact ⟨by simp [keysNodup], by simp⟩
  | step hr hstep ih =>
      exact trackerInv_register_knock _ _ _ _ _ _ _ _ hstep ih

/-! ## Noninterference between source addresses (C6) -/

lemma knockStep_frame (sequence : List Int) (window : ℚ) (st : StateMap)
    (e : Knock) (ip' : String) (hne : ip' ≠ e.ip) :
    lookupState (knockStep sequence window st e).1 ip' =
      lookupState st ip' := by
  unfold knockStep
  cases hrk : register_knock sequence window st e.ip e.port e.time with
  | none => rfl
  | some r =>
      obtain ⟨b, st'⟩ := r
      exact register_knock_frame sequence window st e.ip e.port e.time b st'
        hrk ip' hne

lemma keysNodup_knockStep (sequence : List Int) (window : ℚ) (st : StateMap)
    (e : Knock) (h : keysNodup st) :
    keysNodup (knockStep sequence window st e).1 := by
  unfold knockStep
  cases hrk : register_knock sequence window st e.ip e.port e.time with
  | none => exact h
  | some r =>
      obtain ⟨b, st'⟩ := r
      exact keysNodup_register_knock sequence window st e.ip e.port e.time
        b st' hrk h

/-- A knock's outcome and its effect at its own key are determined by the
entry stored at that key alone. -/
lemma knockStep_own (sequence : List Int) (window : ℚ)
    (st₁ st₂ : StateMap) (e : Knock)
    (h1 : keysNodup st₁) (h2 : keysNodup st₂)
    (h : lookupState st₁ e.ip = lookupState st₂ e.ip) :
    (knockStep sequence window st₁ e).2 = (knockStep sequence window st₂ e).2 ∧
      lookupState (knockStep sequence window st₁ e).1 e.ip =
        lookupState (knockStep sequence window st₂ e).1 e.ip := by
  unfold knockStep
  rw [register_knock_eq_core, register_knock_eq_core, h]
  cases knockCore sequence window (lookupState st₂ e.ip) e.port e.time with
  | none => exact ⟨rfl, h⟩
  | some r =>
      obtain ⟨b, a⟩ := r
      refine ⟨rfl, ?_⟩
      simp only [Option.map_some']
      rw [lookup_applyAct_self st₁ e.ip a h1, lookup_applyAct_self st₂ e.ip a h2,
        h]

lemma runKnocks_filter_eq (sequence : List Int) (window : ℚ) (ipA : String) :
    ∀ (tr : List Knock) (st₁ st₂ : StateMap),
      keysNodup st₁ → keysNodup st₂ →
      lookupState st₁ ipA = lookupState st₂ ipA →
      ((runKnocks sequence window st₁ tr).2.filter (fun r => r.1 == ipA)
          = (runKnocks sequence window st₂
              (tr.filter (fun e => e.ip == ipA))).2) ∧
        lookupState (runKnocks sequence window st₁ tr).1 ipA
          = lookupState (runKnocks sequence window st₂
              (tr.filter (fun e => e.ip == ipA))).1 ipA := by
  intro tr
  induction tr with
  | nil =>
      intro st₁ st₂ _ _ h
      exact ⟨rfl, h⟩
  | cons e rest ih =>
      intro st₁ st₂ h1 h2 h
      by_cases he : e.ip = ipA
      · have hstep := knockStep_own sequence window st₁ st₂ e h1 h2
          (by rw [he]; exact h)
        have hrest := ih (knockStep sequence window st₁ e).1
          (knockStep sequence window st₂ e).1
          (keysNodup_knockStep sequence window st₁ e h1)
          (keysNodup_knockStep sequence window st₂ e h2)
          (by rw [← he]; exact hstep.2)
        simp only [runKnocks, List.filter_cons, he, beq_self_eq_true,
          if_true, ite_true]
        refine ⟨?_, hrest.2⟩
        rw [hstep.1, hrest.1]
      · have hrest := ih (knockStep sequence window st₁ e).1 st₂
          (keysNodup_knockStep sequence window st₁ e h1) h2
          (by rw [knockStep_frame sequence window st₁ e ipA (fun hc => he hc.symm)]
              exact h)
        have hbe : (e.ip == ipA) = false := by
          simp [he]
        simp only [runKnocks, List.filter_cons, hbe, if_false, ite_false]
        exact ⟨hrest.1, hrest.2⟩

/-- C6: interleaving knocks from other addresses into a trace changes
neither the outcomes of address `ipA`'s calls nor `ipA`'s tracker state:
running any trace from a well-formed state gives `ipA` exactly the
outcomes, and the same final entry, that it gets when only its own knocks
run.  (Applying the theorem to every prefix of a trace gives the per-call
intermediate states as well.) -/
theorem knock_noninterference (sequence : List Int) (window : ℚ)
    (st : StateMap) (ipA : String) (tr : List Knock)
    (hnodup : keysNodup st) :
    ((runKnocks sequence window st tr).2.filter (fun r => r.1 == ipA)
        = (runKnocks sequence window st
            (tr.filter (fun e => e.ip == ipA))).2) ∧
      lookupState (runKnocks sequence window st tr).1 ipA
        = lookupState (runKnocks sequence window st
            (tr.filter (fun e => e.ip == ipA))).1 ipA :=
  runKnocks_filter_eq sequence window ipA tr st st hnodup hnodup rfl

/-! ## Out-of-range sequence access for a length-1 sequence (C7) -/

/-- C7 (refuted by the code): the spec admits knock sequences of any
length `>= 1`, but for a sequence of length exactly 1 the first knock
stores `nextIndex = 1` and returns false, and the immediately following
knock evaluates `self.sequence[1]` — out of range, a Python `IndexError`
(embedded as `none`).  The two conjuncts evaluate `register_knock` on
exactly this failing trace. -/
theorem knock_len1_index_error :
    register_knock [1234] 10 [] "10.0.0.1" 1234 0 =
      some (false, [("10.0.0.1", 1, 0)]) ∧
    register_knock [1234] 10 [("10.0.0.1", 1, 0)] "10.0.0.1" 1234 1 =
      none := by
  constructor
  · simp [register_knock, lookupState, setState]
  · simp [register_knock, lookupState]

/-! ## Firewall default-deny posture (C9)

The external rule set is a priority-ordered list (`iptables` `INPUT`
chain): `-A` appends at the end, `-D` deletes the first matching rule and
its "no such rule" failure is swallowed by `_run_iptables`. -/

lemma countRule_append (l₁ l₂ : List Rule) (r : Rule) :
    countRule (l₁ ++ l₂) r = countRule l₁ r + countRule l₂ r := by
  induction l₁ with
  | nil => simp [countRule]
  | cons x xs ih =>
      show (if x = r then 1 else 0) + countRule (xs ++ l₂) r
        = ((if x = r then 1 else 0) + countRule xs r) + countRule l₂ r
      rw [ih]
      omega

lemma countRule_erase_of_le_one (l : List Rule) (r : Rule)
    (h : countRule l r ≤ 1) : countRule (eraseRule l r) r = 0 := by
  induction l with
  | nil => simp [eraseRule, countRule]
  | cons x xs ih =>
      by_cases hx : x = r
      · simp only [eraseRule, if_pos hx]
        simp only [countRule, if_pos hx] at h
        omega
      · simp only [eraseRule, if_neg hx]
        simp only [countRule, if_neg hx] at h ⊢
        rw [ih (by omega)]

/-- C9: `_ensure_default_block` performs exactly one best-effort delete of
the matching DROP rule followed by one append of a fresh one, so from any
chain holding at most one matching DROP rule, calling it once — or twice
in a row — leaves exactly one DROP rule for the protected port. -/
theorem ensure_default_block_idempotent (protected_port : Int)
    (rules : List Rule)
    (h : countRule rules (Rule.drop protected_port) ≤ 1) :
    countRule (ensure_default_block protected_port rules)
        (Rule.drop protected_port) = 1 ∧
      countRule
        (ensure_default_block protected_port
          (ensure_default_block protected_port rules))
        (Rule.drop protected_port) = 1 := by
  have h1 : ∀ l : List Rule, countRule l (Rule.drop protected_port) ≤ 1 →
      countRule (ensure_default_block protected_port l)
        (Rule.drop protected_port) = 1 := by
    intro l hl
    unfold ensure_default_block
    rw [countRule_append, countRule_erase_of_le_one l _ hl]
    simp [countRule]
  exact ⟨h1 rules h, h1 _ (by rw [h1 rules h])⟩

/-! ## Startup configuration parsing (C10)

`main` computes `[int(port) for port in args.sequence.split(",")]` and on
`ValueError` raises `SystemExit("Invalid sequence. ...")` before
`listen_for_knocks` is ever entered; `listen_for_knocks` is what installs
the default block and starts the listeners.  Python `int(s)` (base 10,
ASCII) strips surrounding whitespace, allows one optional sign, then
requires a nonempty digit string in which single underscores may appear
only between digits. -/

/-- C10: whenever the sequence argument does not parse as comma-separated
integers (a non-numeric entry, or the empty string), `main` exits with the
diagnostic before any firewall rule is installed or listener started: the
startup result is the error, and no effect list is ever produced. -/
theorem main_invalid_sequence_exits (s : String) (protectedPort : Int)
    (h : parse_sequence s = none) :
    main_startup s protectedPort =
        Except.error "Invalid sequence. Use comma-separated integers." ∧
      ∀ effects : List StartupEffect,
        main_startup s protectedPort ≠ Except.ok effects := by
  constructor
  · simp [main_startup, h]
  · intro effects
    simp [main_startup, h]

example : parse_sequence "" = none := by rfl

example : parse_sequence "1234,5678,9012" = some [1234, 5678, 9012] := by rfl

example : parse_sequence "12,abc" = none := by rfl

example : parse_sequence "12,,34" = none := by rfl

example : parse_sequence " 12 ,-34" = some [12, -34] := by rfl

/-! ## Concrete instantiations -/

lemma one_sub_zero_le_ten : (1 : ℚ) - 0 ≤ 10 := by norm_num

lemma one_sub_zero_pos : (1 : ℚ) - 0 > 0 := by norm_num

theorem knock_completion_unique_witness :
    lookupState ([] : StateMap) "10.0.0.1" = none ∧
      ∀ port' now', ∃ st'',
        register_knock [1234, 5678, 9012] 10 [] "10.0.0.1" port' now' =
          some (false, st'') :=
  knock_completion_unique [1234, 5678, 9012] 10 [("10.0.0.1", 2, 0)]
    "10.0.0.1" 9012 1 [] (by decide) (by decide)
    (by simp [register_knock, lookupState, delState])

theorem knock_inprogress_advance_witness :
    register_knock [1234, 5678, 9012] 10 [("10.0.0.2", 1, 0)]
        "10.0.0.2" 5678 1 =
      (if 1 + 1 = ([1234, 5678, 9012] : List Int).length then
        some (true, delState [("10.0.0.2", 1, 0)] "10.0.0.2")
       else
        some (false, setState [("10.0.0.2", 1, 0)] "10.0.0.2" (1 + 1, 0))) :=
  knock_inprogress_advance [1234, 5678, 9012] 10 [("10.0.0.2", 1, 0)]
    "10.0.0.2" 1 0 1 5678 (by simp [lookupState]) one_sub_zero_le_ten rfl

theorem knock_absent_start_witness :
    register_knock [1234, 5678, 9012] 10 [] "10.0.0.3" 5678 0 =
      some (false,
        if (5678 : Int) = 1234 then setState [] "10.0.0.3" (1, 0)
        else []) :=
  knock_absent_start [1234, 5678, 9012] 10 [] "10.0.0.3" 5678 0 1234 rfl rfl

theorem knock_wrong_reset_witness :
    register_knock [1234, 5678, 9012] 10 [("10.0.0.4", 1, 0)]
        "10.0.0.4" 9012 1 =
      some (false,
        if (9012 : Int) = 1234 then
          setState (delState [("10.0.0.4", 1, 0)] "10.0.0.4") "10.0.0.4" (1, 1)
        else delState [("10.0.0.4", 1, 0)] "10.0.0.4") :=
  knock_wrong_reset [1234, 5678, 9012] 10 [("10.0.0.4", 1, 0)] "10.0.0.4"
    1 0 1 9012 5678 1234 (by simp [lookupState]) one_sub_zero_le_ten rfl rfl
    (by decide)

theorem knock_window_expired_reset_witness :
    register_knock [1234, 5678, 9012] 0 [("10.0.0.5", 2, 0)]
        "10.0.0.5" 9012 1 =
      some (false,
        if (9012 : Int) = 1234 then
          setState (delState [("10.0.0.5", 2, 0)] "10.0.0.5") "10.0.0.5" (1, 1)
        else delState [("10.0.0.5", 2, 0)] "10.0.0.5") :=
  knock_window_expired_reset [1234, 5678, 9012] 0 [("10.0.0.5", 2, 0)]
    "10.0.0.5" 2 0 1 9012 1234 (by simp [lookupState]) one_sub_zero_pos rfl

theorem knock_noninterference_witness :
    ((runKnocks [1234, 5678, 9012] 10 []
          [⟨"10.0.0.6", 1234, 0⟩, ⟨"10.0.0.7", 1234, 0⟩]).2.filter
        (fun r => r.1 == "10.0.0.6")
        = (runKnocks [1234, 5678, 9012] 10 []
            ([⟨"10.0.0.6", 1234, 0⟩, ⟨"10.0.0.7", 1234, 0⟩].filter
              (fun e => e.ip == "10.0.0.6"))).2) ∧
      lookupState
          (runKnocks [1234, 5678, 9012] 10 []
            [⟨"10.0.0.6", 1234, 0⟩, ⟨"10.0.0.7", 1234, 0⟩]).1 "10.0.0.6"
        = lookupState
            (runKnocks [1234, 5678, 9012] 10 []
              ([⟨"10.0.0.6", 1234, 0⟩, ⟨"10.0.0.7", 1234, 0⟩].filter
                (fun e => e.ip == "10.0.0.6"))).1 "10.0.0.6" :=
  knock_noninterference [1234, 5678, 9012] 10 [] "10.0.0.6"
    [⟨"10.0.0.6", 1234, 0⟩, ⟨"10.0.0.7", 1234, 0⟩] (by decide)

theorem knock_tracker_invariant_witness :
    trackerInv [1234, 5678, 9012] [("10.0.0.8", 1, 0)] :=
  knock_tracker_invariant [1234, 5678, 9012] 10 [("10.0.0.8", 1, 0)]
    (@Reachable.step [1234, 5678, 9012] 10 [] [("10.0.0.8", 1, 0)]
      "10.0.0.8" 1234 0 false Reachable.init
      (by simp [register_knock, lookupState, setState]))

theorem ensure_default_block_idempotent_witness :
    countRule
        (ensure_default_block 2222
          [Rule.acceptFrom "10.0.0.9" 2222, Rule.drop 2222])
        (Rule.drop 2222) = 1 ∧
      countRule
        (ensure_default_block 2222
          (ensure_default_block 2222
            [Rule.acceptFrom "10.0.0.9" 2222, Rule.drop 2222]))
        (Rule.drop 2222) = 1 :=
  ensure_default_block_idempotent 2222
    [Rule.acceptFrom "10.0.0.9" 2222, Rule.drop 2222] (by decide)

theorem main_invalid_sequence_exits_witness :
    main_startup "12,abc" 2222 =
        Except.error "Invalid sequence. Use comma-separated integers." ∧
      ∀ effects : List StartupEffect,
        main_startup "12,abc" 2222 ≠ Except.ok effects :=
  main_invalid_sequence_exits "12,abc" 2222 (by rfl)
